import Mathlib

/-!
Verification development for the cutting-stock repository.

The repository contains two Streamlit scripts:
  * `Cutting_Stock_Problem.py` — the single-stock variant: `generate_patterns`,
    `optimize`, `show_cutting_visual` and the driver logic;
  * `test.py` — the multi-stock variant: `generate_patterns`,
    `optimize_multi_raw`, the pandas summary sort and the driver logic.

Items, raw materials and patterns are embedded as structures whose fields
mirror the Python dictionaries.  Python keys patterns by item *name*; since
the upstream input layer guarantees unique names and the pattern dictionary
is built from the item list in order, we represent a pattern's per-item
counts as a list aligned with the item list (`counts[i]` is the count of
`items[i]`).  Machine integers are `Nat` (all quantities in the program are
non-negative Python ints; `//` is `Nat` division, `-` only occurs where the
subtrahend is bounded by the minuend).  The external ILP solver (OR-Tools)
is an oracle: its status and the integer value of each decision variable are
explicit parameters, and feasibility of an OPTIMAL assignment with respect
to the constraints the code builds is an explicit hypothesis where needed.
-/

/-- Production item: `{'name', 'length', 'count', 'over'}` in both scripts. -/
structure Item where
  name : String
  length : Nat
  count : Nat
  over : Nat
  deriving DecidableEq, Repr

/-- Cutting pattern: the per-item counts (aligned with the item list) plus
the `used_length` entry the enumerators store in the pattern dictionary. -/
structure Pattern where
  counts : List Nat
  used_length : Nat
  deriving DecidableEq, Repr

/-- Raw material type of `test.py`: `{'name', 'length', 'stock'}`. -/
structure RawMaterial where
  name : String
  length : Nat
  stock : Nat
  deriving DecidableEq, Repr

/-- Item lookup with the dummy default used for out-of-range indices. -/
def itemAt (items : List Item) (j : Nat) : Item :=
  items.getD j ⟨"", 0, 0, 0⟩

/-- Pattern lookup with a dummy default. -/
def patAt (ps : List Pattern) (i : Nat) : Pattern :=
  ps.getD i ⟨[], 0⟩

/-- Raw-material lookup with a dummy default. -/
def rawAt (rs : List RawMaterial) (j : Nat) : RawMaterial :=
  rs.getD j ⟨"", 0, 0⟩

/-- Dot product of a count vector with the item lengths:
`sum(combo[i] * items[i]['length'] for i in range(len(items)))`. -/
def listDot : List Nat → List Nat → Nat
  | [], _ => 0
  | _, [] => 0
  | c :: cs, l :: ls => c * l + listDot cs ls

/-- Cartesian product `itertools.product(*[range(m + 1) for m in max_counts])`,
in Python's iteration order (first coordinate varies slowest). -/
def combos : List Nat → List (List Nat)
  | [] => [[]]
  | m :: ms => (List.range (m + 1)).flatMap fun c => (combos ms).map fun rest => c :: rest

/-- Per-item bound `raw_length // item['length']` of the single-stock
`generate_patterns` (`Cutting_Stock_Problem.py`, line 53). -/
def maxCountsSingle (items : List Item) (raw_length : Nat) : List Nat :=
  items.map fun it => raw_length / it.length

/-- Per-item bound of the multi-stock `generate_patterns` (`test.py`,
line 104), which guards against non-positive lengths. -/
def maxCountsMulti (items : List Item) (max_raw_length : Nat) : List Nat :=
  items.map fun it => if 0 < it.length then max_raw_length / it.length else 0

/-- `generate_patterns` of `Cutting_Stock_Problem.py` (lines 52–65): kerf is
charged once per gap, `cut_loss = cut_margin * (total_pieces - 1)`. -/
def generate_patterns_single (items : List Item) (raw_length cut_margin : Nat) :
    List Pattern :=
  (combos (maxCountsSingle items raw_length)).filterMap fun combo =>
    let total_pieces := combo.sum
    if total_pieces = 0 then none
    else
      let cut_loss := cut_margin * (total_pieces - 1)
      let total_len := listDot combo (items.map Item.length) + cut_loss
      if total_len ≤ raw_length then some ⟨combo, total_len⟩ else none

/-- `generate_patterns` of `test.py` (lines 102–121): kerf is charged once
per piece, `cut_loss = cut_margin * total_pieces`. -/
def generate_patterns_multi (items : List Item) (max_raw_length cut_margin : Nat) :
    List Pattern :=
  (combos (maxCountsMulti items max_raw_length)).filterMap fun combo =>
    let total_pieces := combo.sum
    if total_pieces = 0 then none
    else
      let pieces_length := listDot combo (items.map Item.length)
      let cut_loss := cut_margin * total_pieces
      let total_len := pieces_length + cut_loss
      if total_len ≤ max_raw_length then some ⟨combo, total_len⟩ else none

/-- The per-piece kerf rule claimed for an enumerator: every generated
pattern's `used_length` equals `Σ cᵢ·lengthᵢ + kerf · Σ cᵢ`. -/
def kerfPerPiece (gen : List Item → Nat → Nat → List Pattern)
    (items : List Item) (L k : Nat) : Prop :=
  ∀ p ∈ gen items L k,
    p.used_length = listDot p.counts (items.map Item.length) + k * p.counts.sum

/-- Status of the external solver oracle; the code only tests equality with
`pywraplp.Solver.OPTIMAL`, all other statuses behave alike. -/
inductive SolverStatus where
  | optimal
  | infeasible
  | solverFailure
  deriving DecidableEq, Repr

/-- Amount of item `j` produced by the single-stock assignment, starting
variable numbering at `i0`: `sum(x[i] * patterns[i][name])` in `optimize`
(`Cutting_Stock_Problem.py`, lines 74–75). -/
def producedS : List Pattern → (Nat → Nat) → Nat → Nat → Nat
  | [], _, _, _ => 0
  | p :: rest, x, i0, j => x i0 * p.counts.getD j 0 + producedS rest x (i0 + 1) j

/-- Demand constraints the single-stock `optimize` adds, one pair per item:
`min_required <= Σ x_i·patterns[i][name] <= max_allowed`. -/
def demandOkS (items : List Item) (patterns : List Pattern) (x : Nat → Nat) : Prop :=
  ∀ j < items.length,
    (itemAt items j).count ≤ producedS patterns x 0 j ∧
    producedS patterns x 0 j ≤ (itemAt items j).count + (itemAt items j).over

/-- Objective of the single-stock `optimize`: `solver.Minimize(solver.Sum(x))`. -/
def objS : List Pattern → (Nat → Nat) → Nat → Nat
  | [], _, _ => 0
  | _ :: rest, x, i0 => x i0 + objS rest x (i0 + 1)

/-- Result construction of the single-stock `optimize` (lines 80–83): for
each pattern in order, append `x_i` copies of it. -/
def buildResult : List Pattern → (Nat → Nat) → Nat → List Pattern
  | [], _, _ => []
  | p :: rest, x, i0 => List.replicate (x i0) p ++ buildResult rest x (i0 + 1)

/-- `optimize` of `Cutting_Stock_Problem.py` (lines 67–84), with the solver
outcome passed in explicitly: on `OPTIMAL` return `x_i` copies of each
pattern in enumeration order, otherwise the empty list. -/
def optimizeS (patterns : List Pattern) (status : SolverStatus) (x : Nat → Nat) :
    List Pattern :=
  if status = SolverStatus.optimal then buildResult patterns x 0 else []

/-- Per-item total of a result-pattern list, as the driver computes
`actual_counts` (`Cutting_Stock_Problem.py`, lines 146–149). -/
def producedTotal (result : List Pattern) (j : Nat) : Nat :=
  (result.map fun p => p.counts.getD j 0).sum

/-- Keys of the multi-stock decision-variable dictionary `x` (`test.py`,
lines 128–132): a variable `x[i, j]` is created, in i-major order, exactly
for the pairs with `patterns[i]['used_length'] <= raw_materials[j]['length']`. -/
def feasPairs (ps : List Pattern) (rs : List RawMaterial) : List (Nat × Nat) :=
  (List.range ps.length).flatMap fun i =>
    (List.range rs.length).filterMap fun j =>
      if (patAt ps i).used_length ≤ (rawAt rs j).length then some (i, j) else none

/-- Amount of item `j` produced by a multi-stock assignment:
`sum(x[i, j] * patterns[i].get(name, 0) for i, j in x)` (`test.py`, line 140). -/
def producedM (ps : List Pattern) (rs : List RawMaterial) (x : Nat → Nat → Nat)
    (j : Nat) : Nat :=
  ((feasPairs ps rs).map fun ij => x ij.1 ij.2 * (patAt ps ij.1).counts.getD j 0).sum

/-- Demand constraints of `optimize_multi_raw` (`test.py`, lines 135–142). -/
def demandOkM (items : List Item) (ps : List Pattern) (rs : List RawMaterial)
    (x : Nat → Nat → Nat) : Prop :=
  ∀ j < items.length,
    (itemAt items j).count ≤ producedM ps rs x j ∧
    producedM ps rs x j ≤ (itemAt items j).count + (itemAt items j).over

/-- Stock usage of raw material `j`:
`sum(x[i, j] for i in range(len(patterns)) if (i, j) in x)` (`test.py`, line 146). -/
def usedStock (ps : List Pattern) (rs : List RawMaterial) (x : Nat → Nat → Nat)
    (j : Nat) : Nat :=
  (((List.range ps.length).filter fun i => decide ((i, j) ∈ feasPairs ps rs)).map
    fun i => x i j).sum

/-- Supply constraints of `optimize_multi_raw` (`test.py`, lines 145–147):
per raw material, `used_stock <= r['stock']`. -/
def supplyOkM (ps : List Pattern) (rs : List RawMaterial) (x : Nat → Nat → Nat) : Prop :=
  ∀ j < rs.length, usedStock ps rs x j ≤ (rawAt rs j).stock

/-- Objective of `optimize_multi_raw` (`test.py`, lines 149–151):
`total_waste = sum(x[i, j] * (raw_materials[j]['length'] - patterns[i]['used_length']))`
over the instantiated pairs. -/
def totalWaste (ps : List Pattern) (rs : List RawMaterial) (x : Nat → Nat → Nat) : Nat :=
  ((feasPairs ps rs).map fun ij =>
    x ij.1 ij.2 * ((rawAt rs ij.2).length - (patAt ps ij.1).used_length)).sum

/-- One `{'pattern', 'count', 'raw_material'}` entry of the multi-stock
solution list (`test.py`, lines 160–164). -/
structure Triple where
  pattern : Pattern
  count : Nat
  raw_material : RawMaterial
  deriving DecidableEq, Repr

/-- Solution construction of `optimize_multi_raw` (`test.py`, lines 153–165):
on `OPTIMAL`, one triple per instantiated pair whose value is positive,
in dictionary insertion order; otherwise the empty list. -/
def optimize_multi_raw (ps : List Pattern) (rs : List RawMaterial)
    (status : SolverStatus) (x : Nat → Nat → Nat) : List Triple :=
  if status = SolverStatus.optimal then
    (feasPairs ps rs).filterMap fun ij =>
      if 0 < x ij.1 ij.2 then
        some ⟨patAt ps ij.1, x ij.1 ij.2, rawAt rs ij.2⟩
      else none
  else []

/-- Total count the solution assigns to one raw material, summing the
`count` fields of the triples that carry that raw material. -/
def stockCountSol (sol : List Triple) (r : RawMaterial) : Nat :=
  ((sol.filter fun t => decide (t.raw_material = r)).map Triple.count).sum

/-- Driver outcome statuses surfaced to the user by the two scripts. -/
inductive RunStatus where
  | success
  | optimizationFailed
  | emptyPatternSpace
  deriving DecidableEq, Repr

/-- Driver logic of `Cutting_Stock_Problem.py` (lines 136–143): enumerate,
optimize, and report one failure message whenever the result list is empty
(there is no separate branch for an empty pattern list). -/
def run_single (items : List Item) (raw_length cut_margin : Nat)
    (status : SolverStatus) (x : Nat → Nat) : RunStatus :=
  let patterns := generate_patterns_single items raw_length cut_margin
  let result := optimizeS patterns status x
  if result.isEmpty then RunStatus.optimizationFailed else RunStatus.success

/-- `max(r['length'] for r in raw_materials_to_process)` (`test.py`, line 235);
the driver guarantees the list is non-empty before taking the maximum. -/
def maxRawLength (rs : List RawMaterial) : Nat :=
  (rs.map RawMaterial.length).foldr max 0

/-- Driver logic of `test.py` (lines 234–245): an empty pattern list is
reported before the solver is invoked, distinctly from optimization failure. -/
def run_multi (items : List Item) (rs : List RawMaterial) (cut_margin : Nat)
    (status : SolverStatus) (x : Nat → Nat → Nat) : RunStatus :=
  let patterns := generate_patterns_multi items (maxRawLength rs) cut_margin
  if patterns.isEmpty then RunStatus.emptyPatternSpace
  else if (optimize_multi_raw patterns rs status x).isEmpty then
    RunStatus.optimizationFailed
  else RunStatus.success

/-- Characterization of membership in the single-stock enumerator output. -/
lemma mem_generate_patterns_single {items : List Item} {L k : Nat} {p : Pattern} :
    p ∈ generate_patterns_single items L k ↔
      ∃ c ∈ combos (maxCountsSingle items L),
        c.sum ≠ 0 ∧ listDot c (items.map Item.length) + k * (c.sum - 1) ≤ L ∧
        p = ⟨c, listDot c (items.map Item.length) + k * (c.sum - 1)⟩ := by
  unfold generate_patterns_single
  simp only [List.mem_filterMap]
  constructor
  · rintro ⟨c, hc, hf⟩
    by_cases h0 : c.sum = 0
    · simp [h0] at hf
    · by_cases hle : listDot c (items.map Item.length) + k * (c.sum - 1) ≤ L
      · refine ⟨c, hc, h0, hle, ?_⟩
        simp only [h0, if_false, hle, if_true, Option.some.injEq] at hf
        exact hf.symm
      · simp [h0, hle] at hf
  · rintro ⟨c, hc, h0, hle, rfl⟩
    exact ⟨c, hc, by simp [h0, hle]⟩

/-- Characterization of membership in the multi-stock enumerator output. -/
lemma mem_generate_patterns_multi {items : List Item} {L k : Nat} {p : Pattern} :
    p ∈ generate_patterns_multi items L k ↔
      ∃ c ∈ combos (maxCountsMulti items L),
        c.sum ≠ 0 ∧ listDot c (items.map Item.length) + k * c.sum ≤ L ∧
        p = ⟨c, listDot c (items.map Item.length) + k * c.sum⟩ := by
  unfold generate_patterns_multi
  simp only [List.mem_filterMap]
  constructor
  · rintro ⟨c, hc, hf⟩
    by_cases h0 : c.sum = 0
    · simp [h0] at hf
    · by_cases hle : listDot c (items.map Item.length) + k * c.sum ≤ L
      · refine ⟨c, hc, h0, hle, ?_⟩
        simp only [h0, if_false, hle, if_true, Option.some.injEq] at hf
        exact hf.symm
      · simp [h0, hle] at hf
  · rintro ⟨c, hc, h0, hle, rfl⟩
    exact ⟨c, hc, by simp [h0, hle]⟩

/-- C1 counterexample: in the single-stock enumerator, kerf is NOT charged
once per piece.  With one item of length 2, stock length 5 and kerf 1, the
single-piece pattern gets `used_length = 2`, not `2 + 1 = 3`. -/
theorem c1_counterexample :
    ¬ kerfPerPiece generate_patterns_single [⟨"A", 2, 0, 0⟩] 5 1 := by
  intro h
  have := h ⟨[1], 2⟩ (by decide)
  simp [listDot] at this

/-- C1 (amended): the multi-stock enumerator charges kerf once per piece
placed (`k · Σ cᵢ`), but the single-stock enumerator charges kerf once per
gap between pieces (`k · (Σ cᵢ − 1)`). -/
theorem c1_thm (items : List Item) (L k : Nat) :
    (∀ p ∈ generate_patterns_single items L k,
        p.used_length = listDot p.counts (items.map Item.length) + k * (p.counts.sum - 1)) ∧
    (∀ p ∈ generate_patterns_multi items L k,
        p.used_length = listDot p.counts (items.map Item.length) + k * p.counts.sum) := by
  constructor
  · intro p hp
    rcases mem_generate_patterns_single.1 hp with ⟨c, -, -, -, rfl⟩
    rfl
  · intro p hp
    rcases mem_generate_patterns_multi.1 hp with ⟨c, -, -, -, rfl⟩
    rfl

/-- C1 witness: the amended rule evaluated on the two-piece pattern of a
concrete single-stock instance. -/
theorem c1_witness :
    (⟨[2], 5⟩ : Pattern).used_length =
      listDot (⟨[2], 5⟩ : Pattern).counts ([(⟨"A", 2, 0, 0⟩ : Item)].map Item.length) +
        1 * ((⟨[2], 5⟩ : Pattern).counts.sum - 1) :=
  (c1_thm [⟨"A", 2, 0, 0⟩] 5 1).1 ⟨[2], 5⟩ (by decide)

/-- C10: for an empty item list both enumerators return the empty pattern
list for every usable length `L` and kerf `k`: the Cartesian product over
zero items yields only the empty combination, which is rejected as the
degenerate empty pattern. -/
theorem c10_thm (L k : Nat) :
    generate_patterns_single [] L k = [] ∧ generate_patterns_multi [] L k = [] :=
  ⟨rfl, rfl⟩

/-- Membership in the Cartesian product: exactly the vectors bounded
componentwise by the `max_counts` list. -/
lemma mem_combos {ms c : List Nat} : c ∈ combos ms ↔ List.Forall₂ (· ≤ ·) c ms := by
  induction ms generalizing c with
  | nil =>
    simp [combos, List.forall₂_nil_right_iff]
  | cons m ms ih =>
    simp only [combos, List.mem_flatMap, List.mem_map, List.mem_range, Nat.lt_succ_iff]
    constructor
    · rintro ⟨a, ha, rest, hrest, rfl⟩
      exact List.Forall₂.cons ha (ih.1 hrest)
    · intro h
      cases h with
      | cons hab hrest => exact ⟨_, hab, _, ih.2 hrest, rfl⟩

/-- Componentwise consequence of `Forall₂ (· ≤ ·)`. -/
lemma forall₂_le_getD {c ms : List Nat} (h : List.Forall₂ (· ≤ ·) c ms) :
    ∀ i < c.length, c.getD i 0 ≤ ms.getD i 0 := by
  induction h with
  | nil => intro i hi; simp at hi
  | cons hab _ ih =>
    intro i hi
    cases i with
    | zero => simpa using hab
    | succ i => simpa using ih i (by simpa using hi)

/-- Componentwise bounds plus equal length give `Forall₂ (· ≤ ·)`. -/
lemma forall₂_of_getD {c ms : List Nat} (hlen : c.length = ms.length)
    (h : ∀ i < c.length, c.getD i 0 ≤ ms.getD i 0) :
    List.Forall₂ (· ≤ ·) c ms := by
  induction c generalizing ms with
  | nil =>
    cases ms with
    | nil => exact List.Forall₂.nil
    | cons b ms => simp at hlen
  | cons a c ih =>
    cases ms with
    | nil => simp at hlen
    | cons b ms =>
      refine List.Forall₂.cons (by simpa using h 0 (by simp)) ?_
      refine ih (by simpa using hlen) fun i hi => ?_
      simpa using h (i + 1) (by simpa using Nat.succ_lt_succ hi)

/-- A single component never exceeds the whole dot product. -/
lemma listDot_getD_le {c ls : List Nat} {i : Nat} (hc : i < c.length)
    (hl : i < ls.length) : c.getD i 0 * ls.getD i 0 ≤ listDot c ls := by
  induction c generalizing ls i with
  | nil => simp at hc
  | cons a c ih =>
    cases ls with
    | nil => simp at hl
    | cons b ls =>
      cases i with
      | zero => simp [listDot]
      | succ i =>
        simp only [List.getD_cons_succ, listDot]
        exact le_trans (ih (by simpa using hc) (by simpa using hl)) (Nat.le_add_left _ _)

/-- Entries of the single-stock `max_counts` list. -/
lemma maxCountsSingle_getD {items : List Item} {L i : Nat} (hi : i < items.length) :
    (maxCountsSingle items L).getD i 0 = L / (itemAt items i).length := by
  unfold maxCountsSingle itemAt
  rw [List.getD_eq_getElem _ _ (by simpa using hi), List.getElem_map,
    List.getD_eq_getElem _ _ hi]

/-- Entries of the multi-stock `max_counts` list, for positive lengths. -/
lemma maxCountsMulti_getD {items : List Item} {L i : Nat} (hi : i < items.length)
    (hpos : 0 < (itemAt items i).length) :
    (maxCountsMulti items L).getD i 0 = L / (itemAt items i).length := by
  unfold maxCountsMulti itemAt
  rw [List.getD_eq_getElem _ _ (by simpa using hi), List.getElem_map]
  unfold itemAt at hpos
  rw [List.getD_eq_getElem _ _ hi] at hpos ⊢
  simp [hpos]

/-- Entries of the mapped item-length list. -/
lemma lengths_getD {items : List Item} {i : Nat} (hi : i < items.length) :
    (items.map Item.length).getD i 0 = (itemAt items i).length := by
  unfold itemAt
  rw [List.getD_eq_getElem _ _ (by simpa using hi), List.getElem_map,
    List.getD_eq_getElem _ _ hi]

/-- In-range `itemAt` values are members of the item list. -/
lemma itemAt_mem {items : List Item} {i : Nat} (hi : i < items.length) :
    itemAt items i ∈ items := by
  unfold itemAt
  rw [List.getD_eq_getElem _ _ hi]
  exact List.getElem_mem hi

/-- Feasible count vectors are componentwise bounded by `L // lengthᵢ`. -/
lemma counts_le_div {items : List Item} {L : Nat} {c : List Nat}
    (hpos : ∀ it ∈ items, 0 < it.length)
    (hlen : c.length = items.length)
    (hdot : listDot c (items.map Item.length) ≤ L) :
    ∀ i < c.length, c.getD i 0 ≤ L / (itemAt items i).length := by
  intro i hi
  have hii : i < items.length := hlen ▸ hi
  have hl : 0 < (itemAt items i).length := hpos _ (itemAt_mem hii)
  rw [Nat.le_div_iff_mul_le hl]
  calc c.getD i 0 * (itemAt items i).length
      = c.getD i 0 * (items.map Item.length).getD i 0 := by rw [lengths_getD hii]
    _ ≤ listDot c (items.map Item.length) := listDot_getD_le hi (by simpa using hii)
    _ ≤ L := hdot

/-- C2: with positive item lengths, each enumerator returns exactly the
count vectors that are not all zero and whose `used_length` (computed by
that enumerator's kerf rule) is at most `L`; every returned pattern has a
count vector of the right arity, componentwise bounded by `L // lengthᵢ`,
and no feasible vector is omitted. -/
theorem c2_thm (items : List Item) (L k : Nat)
    (hpos : ∀ it ∈ items, 0 < it.length) :
    (∀ p ∈ generate_patterns_single items L k,
        p.counts.length = items.length ∧ 0 < p.counts.sum ∧ p.used_length ≤ L ∧
        ∀ i < items.length, p.counts.getD i 0 ≤ L / (itemAt items i).length) ∧
    (∀ c : List Nat, c.length = items.length → 0 < c.sum →
        listDot c (items.map Item.length) + k * (c.sum - 1) ≤ L →
        ∃ p ∈ generate_patterns_single items L k, p.counts = c) ∧
    (∀ p ∈ generate_patterns_multi items L k,
        p.counts.length = items.length ∧ 0 < p.counts.sum ∧ p.used_length ≤ L ∧
        ∀ i < items.length, p.counts.getD i 0 ≤ L / (itemAt items i).length) ∧
    (∀ c : List Nat, c.length = items.length → 0 < c.sum →
        listDot c (items.map Item.length) + k * c.sum ≤ L →
        ∃ p ∈ generate_patterns_multi items L k, p.counts = c) := by
  have hmsl : (maxCountsSingle items L).length = items.length := by
    simp [maxCountsSingle]
  have hmml : (maxCountsMulti items L).length = items.length := by
    simp [maxCountsMulti]
  refine ⟨?_, ?_, ?_, ?_⟩
  · intro p hp
    rcases mem_generate_patterns_single.1 hp with ⟨c, hc, h0, hle, rfl⟩
    have hf := mem_combos.1 hc
    have hlen : c.length = items.length := hf.length_eq.trans hmsl
    refine ⟨hlen, Nat.pos_of_ne_zero h0, hle, fun i hi => ?_⟩
    have hic : i < c.length := hlen ▸ hi
    calc c.getD i 0 ≤ (maxCountsSingle items L).getD i 0 := forall₂_le_getD hf i hic
      _ = L / (itemAt items i).length := maxCountsSingle_getD hi
  · intro c hlen hsum hle
    have hdot : listDot c (items.map Item.length) ≤ L :=
      le_trans (Nat.le_add_right _ _) hle
    have hc : c ∈ combos (maxCountsSingle items L) := by
      refine mem_combos.2 (forall₂_of_getD (hlen.trans hmsl.symm) fun i hi => ?_)
      rw [maxCountsSingle_getD (hlen ▸ hi)]
      exact counts_le_div hpos hlen hdot i hi
    exact ⟨_, mem_generate_patterns_single.2
      ⟨c, hc, Nat.pos_iff_ne_zero.1 hsum, hle, rfl⟩, rfl⟩
  · intro p hp
    rcases mem_generate_patterns_multi.1 hp with ⟨c, hc, h0, hle, rfl⟩
    have hf := mem_combos.1 hc
    have hlen : c.length = items.length := hf.length_eq.trans hmml
    refine ⟨hlen, Nat.pos_of_ne_zero h0, hle, fun i hi => ?_⟩
    have hic : i < c.length := hlen ▸ hi
    calc c.getD i 0 ≤ (maxCountsMulti items L).getD i 0 := forall₂_le_getD hf i hic
      _ = L / (itemAt items i).length :=
        maxCountsMulti_getD hi (hpos _ (itemAt_mem hi))
  · intro c hlen hsum hle
    have hdot : listDot c (items.map Item.length) ≤ L :=
      le_trans (Nat.le_add_right _ _) hle
    have hc : c ∈ combos (maxCountsMulti items L) := by
      refine mem_combos.2 (forall₂_of_getD (hlen.trans hmml.symm) fun i hi => ?_)
      rw [maxCountsMulti_getD (hlen ▸ hi) (hpos _ (itemAt_mem (hlen ▸ hi)))]
      exact counts_le_div hpos hlen hdot i hi
    exact ⟨_, mem_generate_patterns_multi.2
      ⟨c, hc, Nat.pos_iff_ne_zero.1 hsum, hle, rfl⟩, rfl⟩

/-- C2 witness: the concrete pattern `⟨[1], 3⟩` generated by the multi-stock
enumerator for one item of length 2, stock 5, kerf 1 satisfies the length
bound. -/
theorem c2_witness : (⟨[1], 3⟩ : Pattern).used_length ≤ 5 :=
  (((c2_thm [⟨"A", 2, 1, 0⟩] 5 1 (by decide)).2.2.1) ⟨[1], 3⟩ (by decide)).2.2.1

/-- The driver's per-item recount of the result list equals the constraint
expression of the integer program, variable numbering started at `i0`. -/
lemma producedTotal_buildResult (ps : List Pattern) (x : Nat → Nat) (i0 j : Nat) :
    producedTotal (buildResult ps x i0) j = producedS ps x i0 j := by
  induction ps generalizing i0 with
  | nil => rfl
  | cons p rest ih =>
    simp only [buildResult, producedS, producedTotal, List.map_append, List.sum_append,
      List.map_replicate, List.sum_replicate, smul_eq_mul] at *
    rw [ih]

/-- C3: if the OPTIMAL assignment satisfies the demand constraints built by
the single-stock `optimize` (the solver-oracle contract), then each item's
produced total in the returned solution lies between `min_count` and
`min_count + max_over`. -/
theorem c3_thm (items : List Item) (ps : List Pattern) (x : Nat → Nat)
    (hfeas : demandOkS items ps x) :
    ∀ j < items.length,
      (itemAt items j).count ≤ producedTotal (optimizeS ps SolverStatus.optimal x) j ∧
      producedTotal (optimizeS ps SolverStatus.optimal x) j ≤
        (itemAt items j).count + (itemAt items j).over := by
  intro j hj
  have h := hfeas j hj
  simpa [optimizeS, producedTotal_buildResult] using h

/-- C3 witness: a concrete feasible assignment meets the lower demand bound. -/
theorem c3_witness :
    (itemAt [⟨"A", 2, 1, 0⟩] 0).count ≤
      producedTotal (optimizeS [⟨[1], 2⟩, ⟨[2], 5⟩] SolverStatus.optimal
        (fun i => if i = 0 then 1 else 0)) 0 :=
  (c3_thm [⟨"A", 2, 1, 0⟩] [⟨[1], 2⟩, ⟨[2], 5⟩]
    (fun i => if i = 0 then 1 else 0) (by unfold demandOkS; decide) 0 (by decide)).1

/-- Result length of the single-stock construction equals the objective. -/
lemma length_buildResult (ps : List Pattern) (x : Nat → Nat) (i0 : Nat) :
    (buildResult ps x i0).length = objS ps x i0 := by
  induction ps generalizing i0 with
  | nil => rfl
  | cons p rest ih => simp [buildResult, objS, ih]

/-- Patterns absent from the pattern list do not occur in the result. -/
lemma count_buildResult_not_mem {ps : List Pattern} {q : Pattern} (h : q ∉ ps)
    (x : Nat → Nat) (i0 : Nat) : (buildResult ps x i0).count q = 0 := by
  induction ps generalizing i0 with
  | nil => rfl
  | cons p rest ih =>
    simp only [List.mem_cons, not_or] at h
    have hpq : ¬ p = q := fun he => h.1 he.symm
    simp [buildResult, List.count_append, List.count_replicate, hpq, ih h.2]

/-- With pairwise-distinct patterns, pattern `i` occurs exactly `x (i0 + i)`
times in the constructed result. -/
lemma count_buildResult {ps : List Pattern} (hnd : ps.Nodup) (x : Nat → Nat)
    (i0 : Nat) {i : Nat} (h : i < ps.length) :
    (buildResult ps x i0).count ps[i] = x (i0 + i) := by
  induction ps generalizing i0 i with
  | nil => simp at h
  | cons p rest ih =>
    rcases List.nodup_cons.1 hnd with ⟨hnm, hnd2⟩
    cases i with
    | zero =>
      simp [buildResult, List.count_append, List.count_replicate,
        count_buildResult_not_mem hnm x (i0 + 1)]
    | succ i =>
      have h2 : i < rest.length := by simpa using h
      have hmem : rest[i] ∈ rest := List.getElem_mem h2
      have hqp : rest[i] ≠ p := fun he => hnm (he ▸ hmem)
      have hpq : ¬ p = rest[i] := fun he => hqp he.symm
      calc (buildResult (p :: rest) x i0).count (p :: rest)[i + 1]
          = (buildResult rest x (i0 + 1)).count rest[i] := by
            simp [buildResult, List.count_append, List.count_replicate, hpq]
        _ = x (i0 + 1 + i) := ih hnd2 (i0 + 1) h2
        _ = x (i0 + (i + 1)) := by congr 1; omega

/-- C9: on OPTIMAL, the single-stock `optimize` encodes pattern usage by
repetition: the result length equals the objective value `Σ x_i`, and (for
pairwise-distinct patterns, as produced by the enumerator) each pattern `i`
occurs exactly `x i` times, in enumeration order. -/
theorem c9_thm (ps : List Pattern) (x : Nat → Nat) :
    (optimizeS ps SolverStatus.optimal x).length = objS ps x 0 ∧
    (ps.Nodup → ∀ i (h : i < ps.length),
      (optimizeS ps SolverStatus.optimal x).count ps[i] = x i) := by
  constructor
  · simp [optimizeS, length_buildResult]
  · intro hnd i h
    have := count_buildResult hnd x 0 h
    simpa [optimizeS] using this

/-- C9 witness: with two distinct patterns and `x = (1, 2)`, the first
pattern occurs once in the result. -/
theorem c9_witness :
    (optimizeS [⟨[1], 2⟩, ⟨[2], 5⟩] SolverStatus.optimal (fun i => i + 1)).count
      (⟨[1], 2⟩ : Pattern) = 1 := by
  have := (c9_thm [⟨[1], 2⟩, ⟨[2], 5⟩] (fun i => i + 1)).2 (by decide) 0 (by decide)
  simpa using this

/-- Sum of a mapped flatMap, split into the outer list. -/
lemma sum_map_flatMap {α β : Type} (l : List α) (f : α → List β) (g : β → Nat) :
    ((l.flatMap f).map g).sum = (l.map fun a => ((f a).map g).sum).sum := by
  induction l with
  | nil => rfl
  | cons a t ih => simp [List.flatMap_cons, ih]

/-- Sum of a mapped conditional filterMap as a sum of conditionals. -/
lemma sum_map_filterMap_if {α β : Type} (l : List α) (p : α → Prop) [DecidablePred p]
    (g : α → β) (f : β → Nat) :
    ((l.filterMap fun a => if p a then some (g a) else none).map f).sum
      = (l.map fun a => if p a then f (g a) else 0).sum := by
  induction l with
  | nil => rfl
  | cons a t ih => by_cases h : p a <;> simp [h, ih]

/-- Sum of a mapped filter as a sum of conditionals. -/
lemma sum_map_filter {α : Type} (l : List α) (p : α → Bool) (f : α → Nat) :
    ((l.filter p).map f).sum = (l.map fun a => if p a then f a else 0).sum := by
  induction l with
  | nil => rfl
  | cons a t ih => cases h : p a <;> simp [List.filter_cons, h, ih]

/-- Sum of a map over `List.range` as a `Finset.range` sum. -/
lemma sum_map_range_eq (n : Nat) (f : Nat → Nat) :
    ((List.range n).map f).sum = (Finset.range n).sum f := by
  induction n with
  | zero => rfl
  | succ m ih =>
    rw [List.range_succ, List.map_append, List.sum_append, Finset.sum_range_succ, ih]
    simp

/-- A decision variable `x[i, j]` exists exactly for in-range pairs whose
pattern fits on the raw material. -/
lemma mem_feasPairs {ps : List Pattern} {rs : List RawMaterial} {i j : Nat} :
    (i, j) ∈ feasPairs ps rs ↔
      i < ps.length ∧ j < rs.length ∧
        (patAt ps i).used_length ≤ (rawAt rs j).length := by
  unfold feasPairs
  simp only [List.mem_flatMap, List.mem_filterMap, List.mem_range]
  constructor
  · rintro ⟨a, ha, b, hb, hab⟩
    by_cases hc : (patAt ps a).used_length ≤ (rawAt rs b).length
    · rw [if_pos hc] at hab
      simp only [Option.some.injEq, Prod.mk.injEq] at hab
      obtain ⟨rfl, rfl⟩ := hab
      exact ⟨ha, hb, hc⟩
    · rw [if_neg hc] at hab
      cases hab
  · rintro ⟨hi, hj, hc⟩
    exact ⟨i, hi, j, hj, by rw [if_pos hc]⟩

/-- The objective stated by the spec: total waste
`Σ x_{p,s} · (length_s − used_length_p)` over the instantiated (pattern,
stock) pairs; pairs that were not instantiated contribute nothing. -/
def specTotalWaste (ps : List Pattern) (rs : List RawMaterial)
    (x : Nat → Nat → Nat) : Nat :=
  (Finset.range ps.length).sum fun i =>
    (Finset.range rs.length).sum fun j =>
      if (patAt ps i).used_length ≤ (rawAt rs j).length then
        x i j * ((rawAt rs j).length - (patAt ps i).used_length)
      else 0

/-- C4: the multi-stock objective built by `optimize_multi_raw` is exactly
the total waste `Σ x_{p,s}·(length_s − used_length_p)` over all
instantiated (pattern, stock) pairs. -/
theorem c4_thm (ps : List Pattern) (rs : List RawMaterial) (x : Nat → Nat → Nat) :
    totalWaste ps rs x = specTotalWaste ps rs x := by
  unfold totalWaste feasPairs specTotalWaste
  rw [sum_map_flatMap]
  rw [List.map_congr_left (fun i _ => sum_map_filterMap_if (List.range rs.length)
    (fun j => (patAt ps i).used_length ≤ (rawAt rs j).length) (fun j => (i, j))
    (fun ij => x ij.1 ij.2 * ((rawAt rs ij.2).length - (patAt ps ij.1).used_length)))]
  rw [List.map_congr_left (fun i _ => sum_map_range_eq rs.length _)]
  rw [sum_map_range_eq]

/-- C5: a decision variable exists for a (pattern, stock) pair iff the
pattern fits on the stock, and every triple of a returned solution has a
fitting pattern and a positive count. -/
theorem c5_thm (ps : List Pattern) (rs : List RawMaterial)
    (status : SolverStatus) (x : Nat → Nat → Nat) :
    (∀ i j, (i, j) ∈ feasPairs ps rs ↔
      i < ps.length ∧ j < rs.length ∧
        (patAt ps i).used_length ≤ (rawAt rs j).length) ∧
    ∀ t ∈ optimize_multi_raw ps rs status x,
      t.pattern.used_length ≤ t.raw_material.length ∧ 0 < t.count := by
  refine ⟨fun i j => mem_feasPairs, ?_⟩
  intro t ht
  unfold optimize_multi_raw at ht
  by_cases hs : status = SolverStatus.optimal
  · rw [if_pos hs] at ht
    rcases List.mem_filterMap.1 ht with ⟨ij, hij, hf⟩
    by_cases hx : 0 < x ij.1 ij.2
    · rw [if_pos hx] at hf
      simp only [Option.some.injEq] at hf
      subst hf
      rcases mem_feasPairs.1 hij with ⟨hi, hj, hle⟩
      exact ⟨hle, hx⟩
    · rw [if_neg hx] at hf
      cases hf
  · rw [if_neg hs] at ht
    cases ht

/-- C5 witness: the one triple of a concrete optimal run fits its stock. -/
theorem c5_witness :
    (⟨⟨[1], 2⟩, 1, ⟨"RA", 3, 5⟩⟩ : Triple).pattern.used_length ≤
      (⟨⟨[1], 2⟩, 1, ⟨"RA", 3, 5⟩⟩ : Triple).raw_material.length :=
  ((c5_thm [⟨[1], 2⟩] [⟨"RA", 3, 5⟩] SolverStatus.optimal (fun _ _ => 1)).2
    ⟨⟨[1], 2⟩, 1, ⟨"RA", 3, 5⟩⟩ (by decide)).1

/-- Unfolding `stockCountSol` over a cons cell. -/
lemma stockCountSol_cons (t : Triple) (ts : List Triple) (r : RawMaterial) :
    stockCountSol (t :: ts) r =
      (if t.raw_material = r then t.count else 0) + stockCountSol ts r := by
  unfold stockCountSol
  by_cases h : t.raw_material = r <;> simp [List.filter_cons, h]

/-- Counts carried to one raw material by the triples built from a pair
list, as a sum of conditionals over the pairs. -/
lemma stockCountSol_filterMap (ps : List Pattern) (rs : List RawMaterial)
    (x : Nat → Nat → Nat) (r : RawMaterial) (L : List (Nat × Nat)) :
    stockCountSol (L.filterMap fun ij =>
        if 0 < x ij.1 ij.2 then some ⟨patAt ps ij.1, x ij.1 ij.2, rawAt rs ij.2⟩
        else none) r
      = (L.map fun ij =>
          if rawAt rs ij.2 = r ∧ 0 < x ij.1 ij.2 then x ij.1 ij.2 else 0).sum := by
  induction L with
  | nil => rfl
  | cons a t ih =>
    by_cases hx : 0 < x a.1 a.2
    · by_cases hr : rawAt rs a.2 = r
      · simp [List.filterMap_cons, hx, stockCountSol_cons, hr, ih]
      · simp [List.filterMap_cons, hx, stockCountSol_cons, hr, ih]
    · have hx0 : x a.1 a.2 = 0 := Nat.eq_zero_of_not_pos hx
      simp [List.filterMap_cons, hx, ih, hx0]

/-- With pairwise-distinct raw materials, the count a returned solution
assigns to raw material `j` is exactly the `used_stock` expression of the
supply constraint. -/
lemma stockCountSol_eq_usedStock (ps : List Pattern) (rs : List RawMaterial)
    (x : Nat → Nat → Nat) {j : Nat} (hj : j < rs.length) (hnd : rs.Nodup) :
    stockCountSol (optimize_multi_raw ps rs SolverStatus.optimal x) (rawAt rs j)
      = usedStock ps rs x j := by
  have hmain : stockCountSol (optimize_multi_raw ps rs SolverStatus.optimal x)
      (rawAt rs j)
      = ((List.range ps.length).map fun i =>
          ((List.range rs.length).map fun j2 =>
            if (patAt ps i).used_length ≤ (rawAt rs j2).length then
              (if rawAt rs j2 = rawAt rs j ∧ 0 < x i j2 then x i j2 else 0)
            else 0).sum).sum := by
    unfold optimize_multi_raw
    rw [if_pos rfl, stockCountSol_filterMap]
    unfold feasPairs
    rw [sum_map_flatMap]
    exact congrArg List.sum (List.map_congr_left fun i _ =>
      sum_map_filterMap_if (List.range rs.length)
        (fun j2 => (patAt ps i).used_length ≤ (rawAt rs j2).length) (fun j2 => (i, j2))
        (fun ij => if rawAt rs ij.2 = rawAt rs j ∧ 0 < x ij.1 ij.2 then x ij.1 ij.2 else 0))
  have hinner : ∀ i, ((List.range rs.length).map fun j2 =>
      if (patAt ps i).used_length ≤ (rawAt rs j2).length then
        (if rawAt rs j2 = rawAt rs j ∧ 0 < x i j2 then x i j2 else 0)
      else 0).sum
      = (if (patAt ps i).used_length ≤ (rawAt rs j).length then x i j else 0) := by
    intro i
    rw [sum_map_range_eq]
    have hpt : ∀ j2 ∈ Finset.range rs.length,
        (if (patAt ps i).used_length ≤ (rawAt rs j2).length then
          (if rawAt rs j2 = rawAt rs j ∧ 0 < x i j2 then x i j2 else 0) else 0)
        = (if j2 = j then
            (if (patAt ps i).used_length ≤ (rawAt rs j).length then x i j else 0)
          else 0) := by
      intro j2 hj2
      rw [Finset.mem_range] at hj2
      by_cases he : j2 = j
      · subst he
        by_cases hf : (patAt ps i).used_length ≤ (rawAt rs j2).length
        · by_cases hx : 0 < x i j2
          · simp [hf, hx]
          · simp [hf, hx, Nat.eq_zero_of_not_pos hx]
        · simp [hf]
      · have hne : ¬ rawAt rs j2 = rawAt rs j := by
          intro heq
          apply he
          unfold rawAt at heq
          rw [List.getD_eq_getElem _ _ hj2, List.getD_eq_getElem _ _ hj] at heq
          have := (List.Nodup.get_inj_iff hnd
            (i := ⟨j2, hj2⟩) (j := ⟨j, hj⟩)).1 (by simpa using heq)
          exact congrArg Fin.val this
        simp [hne, he]
    rw [Finset.sum_congr rfl hpt, Finset.sum_ite_eq' (Finset.range rs.length) j]
    simp [Finset.mem_range.2 hj]
  rw [hmain, List.map_congr_left fun i _ => hinner i]
  unfold usedStock
  rw [sum_map_filter]
  refine congrArg List.sum (List.map_congr_left fun i hi => ?_)
  rw [List.mem_range] at hi
  by_cases hc : (patAt ps i).used_length ≤ (rawAt rs j).length
  · simp [hc, mem_feasPairs, hi, hj]
  · simp [hc, mem_feasPairs, hi, hj]

/-- C6: if the OPTIMAL assignment satisfies the supply constraints built by
`optimize_multi_raw` (the solver-oracle contract), then — with
pairwise-distinct raw materials — the total count the returned solution
assigns to each stock type never exceeds that type's supply. -/
theorem c6_thm (ps : List Pattern) (rs : List RawMaterial) (x : Nat → Nat → Nat)
    (hnd : rs.Nodup) (hsup : supplyOkM ps rs x) :
    ∀ j < rs.length,
      stockCountSol (optimize_multi_raw ps rs SolverStatus.optimal x) (rawAt rs j) ≤
        (rawAt rs j).stock := by
  intro j hj
  rw [stockCountSol_eq_usedStock ps rs x hj hnd]
  exact hsup j hj

/-- C6 witness: a concrete optimal run respects the supply of its one stock. -/
theorem c6_witness :
    stockCountSol (optimize_multi_raw [⟨[1], 2⟩] [⟨"RA", 3, 1⟩] SolverStatus.optimal
      (fun _ _ => 1)) (rawAt [⟨"RA", 3, 1⟩] 0) ≤ (rawAt [⟨"RA", 3, 1⟩] 0).stock :=
  c6_thm [⟨[1], 2⟩] [⟨"RA", 3, 1⟩] (fun _ _ => 1) (by decide)
    (by unfold supplyOkM; decide) 0 (by decide)

/-- C7 counterexample: the single-stock variant does NOT surface an empty
pattern space distinctly from solver infeasibility.  An item longer than
the stock (empty enumeration) and an infeasible solve over a non-empty
pattern set both surface the same optimization-failed outcome. -/
theorem c7_counterexample :
    generate_patterns_single [⟨"A", 10, 1, 0⟩] 5 1 = [] ∧
    generate_patterns_single [⟨"A", 2, 1, 0⟩] 5 1 ≠ [] ∧
    run_single [⟨"A", 10, 1, 0⟩] 5 1 SolverStatus.optimal (fun _ => 0) =
      run_single [⟨"A", 2, 1, 0⟩] 5 1 SolverStatus.infeasible (fun _ => 0) := by
  refine ⟨by decide, by decide, ?_⟩
  decide

/-- C7 (amended): on any non-OPTIMAL solver status both optimizers return
an empty Solution; the multi-stock driver surfaces an empty pattern space
distinctly from optimization failure, but the single-stock driver surfaces
every failure — empty pattern space included — as the same
optimization-failed outcome. -/
theorem c7_thm (items : List Item) (ps : List Pattern) (rs : List RawMaterial)
    (L k : Nat) (status : SolverStatus) (x1 : Nat → Nat) (x2 : Nat → Nat → Nat)
    (h : status ≠ SolverStatus.optimal) :
    optimizeS ps status x1 = [] ∧
    optimize_multi_raw ps rs status x2 = [] ∧
    (generate_patterns_multi items (maxRawLength rs) k = [] →
      run_multi items rs k status x2 = RunStatus.emptyPatternSpace) ∧
    (generate_patterns_multi items (maxRawLength rs) k ≠ [] →
      run_multi items rs k status x2 = RunStatus.optimizationFailed) ∧
    run_single items L k status x1 = RunStatus.optimizationFailed := by
  refine ⟨by rw [optimizeS, if_neg h], by rw [optimize_multi_raw, if_neg h], ?_, ?_, ?_⟩
  · intro hemp
    simp [run_multi, hemp]
  · intro hne
    simp [run_multi, hne, optimize_multi_raw, h]
  · simp [run_single, optimizeS, h, buildResult]

/-- C7 witness: a concrete infeasible single-stock run fails. -/
theorem c7_witness :
    run_single [⟨"A", 2, 1, 0⟩] 5 1 SolverStatus.infeasible (fun _ => 0) =
      RunStatus.optimizationFailed :=
  (c7_thm [⟨"A", 2, 1, 0⟩] [] [] 5 1 SolverStatus.infeasible (fun _ => 0)
    (fun _ _ => 0) (by decide)).2.2.2.2

/-- Grouping key of a result pattern in the single-stock reporter:
`tuple((name, pattern[name]) for name in item_names)`
(`Cutting_Stock_Problem.py`, line 90). -/
def patternKey (item_names : List String) (p : Pattern) : List (String × Nat) :=
  item_names.zip p.counts

/-- `pattern_order` of the single-stock reporter (lines 87–93): the keys of
the result patterns in order of first appearance. -/
def pattern_order (item_names : List String) (result : List Pattern) :
    List (List (String × Nat)) :=
  result.foldl
    (fun acc p =>
      if patternKey item_names p ∈ acc then acc else acc ++ [patternKey item_names p])
    []

/-- `pattern_counts[key]`: number of repetitions of a key in the result
(line 91). -/
def pattern_count (item_names : List String) (result : List Pattern)
    (key : List (String × Nat)) : Nat :=
  (result.filter fun p => decide (patternKey item_names p = key)).length

/-- Stable insertion into a list sorted by descending count. -/
def insertByCountDesc (cnt : List (String × Nat) → Nat) (key : List (String × Nat)) :
    List (List (String × Nat)) → List (List (String × Nat))
  | [] => [key]
  | a :: rest =>
    if cnt a ≤ cnt key then key :: a :: rest else a :: insertByCountDesc cnt key rest

/-- Stable sort by descending count — the ordering the spec claims for the
single-stock reporter (descending count, ties by insertion order). -/
def sortByCountDesc (cnt : List (String × Nat) → Nat) :
    List (List (String × Nat)) → List (List (String × Nat))
  | [] => []
  | a :: rest => insertByCountDesc cnt a (sortByCountDesc cnt rest)

/-- The spec's claimed single-stock presentation contract: the reporter's
order coincides with the stable descending-count order. -/
def singleOrderClaim (item_names : List String) (result : List Pattern) : Prop :=
  pattern_order item_names result =
    sortByCountDesc (pattern_count item_names result) (pattern_order item_names result)

/-- First-occurrence deduplication: each key at the position of its first
appearance. -/
def firstOccurOrder {α : Type} [DecidableEq α] : List α → List α
  | [] => []
  | a :: rest => a :: firstOccurOrder (rest.filter fun b => decide (¬ b = a))
termination_by l => l.length
decreasing_by
  simp only [List.length_cons]
  exact Nat.lt_succ_of_le (List.length_filter_le _ _)

/-- Ordering used by the multi-stock summary sort (`test.py`, line 283):
raw-material name ascending, then count descending. -/
def summaryLe (a b : Triple) : Prop :=
  a.raw_material.name < b.raw_material.name ∨
    (a.raw_material.name = b.raw_material.name ∧ b.count ≤ a.count)

instance : DecidableRel summaryLe := fun a b => by
  unfold summaryLe
  infer_instance

/-- Modelled from the spec and the pandas contract: the repository calls
`DataFrame.sort_values(by=["원자재", "사용 횟수"], ascending=[True, False])` on
one row per solution triple; pandas is an external library, so its sort is
modelled by its documented contract — a permutation of the rows ordered by
the composite key, i.e. by `summaryLe`. -/
def sort_summary (sol : List Triple) : List Triple :=
  sol.insertionSort summaryLe

instance : IsTotal Triple summaryLe :=
  ⟨fun a b => by
    unfold summaryLe
    rcases lt_trichotomy a.raw_material.name b.raw_material.name with h | h | h
    · exact Or.inl (Or.inl h)
    · rcases Nat.le_total b.count a.count with hc | hc
      · exact Or.inl (Or.inr ⟨h, hc⟩)
      · exact Or.inr (Or.inr ⟨h.symm, hc⟩)
    · exact Or.inr (Or.inl h)⟩

instance : IsTrans Triple summaryLe :=
  ⟨by
    intro a b c hab hbc
    unfold summaryLe at *
    rcases hab with h1 | ⟨h1, h1c⟩ <;> rcases hbc with h2 | ⟨h2, h2c⟩
    · exact Or.inl (lt_trans h1 h2)
    · exact Or.inl (h2 ▸ h1)
    · exact Or.inl (by rw [h1]; exact h2)
    · exact Or.inr ⟨h1.trans h2, le_trans h2c h1c⟩⟩

/-- The reporter's fold, generalized over the accumulator, computes the
first-occurrence deduplication of the keys not already accumulated. -/
lemma pattern_order_foldl (item_names : List String) :
    ∀ (l : List Pattern) (acc : List (List (String × Nat))),
      l.foldl (fun acc p =>
        if patternKey item_names p ∈ acc then acc
        else acc ++ [patternKey item_names p]) acc
      = acc ++ firstOccurOrder ((l.map (patternKey item_names)).filter
          fun key => decide (key ∉ acc)) := by
  intro l
  induction l with
  | nil => intro acc; simp [firstOccurOrder]
  | cons p rest ih =>
    intro acc
    simp only [List.foldl_cons, List.map_cons, List.filter_cons]
    by_cases hm : patternKey item_names p ∈ acc
    · rw [if_pos hm]
      have hd : (decide (patternKey item_names p ∉ acc)) = false := by simp [hm]
      rw [hd]
      exact ih acc
    · rw [if_neg hm]
      have hd : (decide (patternKey item_names p ∉ acc)) = true := by simp [hm]
      rw [hd]
      rw [ih (acc ++ [patternKey item_names p])]
      rw [List.append_assoc]
      congr 1
      simp only [if_true, List.singleton_append]
      simp only [firstOccurOrder]
      congr 1
      rw [List.filter_filter]
      congr 1
      refine List.filter_congr fun b hb => ?_
      by_cases h1 : b ∈ acc <;> by_cases h2 : b = patternKey item_names p <;>
        simp [h1, h2, List.mem_append]

/-- C8 counterexample: the single-stock reporter lists keys in insertion
order, not by descending count.  With patterns `[⟨[1],1⟩, ⟨[2],2⟩]` and an
optimal assignment `x = (1, 2)`, the result is `[p₁, p₂, p₂]` and the
reporter emits `p₁`'s key first although `p₂` has the larger count. -/
theorem c8_counterexample :
    ¬ singleOrderClaim ["A"]
      (optimizeS [⟨[1], 1⟩, ⟨[2], 2⟩] SolverStatus.optimal (fun i => i + 1)) := by
  unfold singleOrderClaim
  decide

/-- C8 (amended): the single-stock reporter orders pattern keys by first
occurrence in the result (insertion order, not descending count); the
multi-stock summary sort orders triples by raw-material name ascending and
then count descending, as a permutation of the solution rows. -/
theorem c8_thm (item_names : List String) (result : List Pattern)
    (sol : List Triple) :
    pattern_order item_names result
      = firstOccurOrder (result.map (patternKey item_names)) ∧
    List.Sorted summaryLe (sort_summary sol) ∧ (sort_summary sol).Perm sol := by
  refine ⟨?_, List.sorted_insertionSort summaryLe sol, List.perm_insertionSort summaryLe sol⟩
  unfold pattern_order
  rw [pattern_order_foldl item_names result []]
  simp
